import Mathlib

set_option maxHeartbeats 1000000

namespace M3U8Model

/-- Error cases surfaced by the downloader model (the anyhow bail sites of main.rs). -/
inductive DlErr
  | missingBaseUrl
  | noVariants
  | ivFormat
  | keyFetch
  | urlParse
deriving DecidableEq, Repr

/-- Model of the absolute-URI test used by main.rs (url.starts_with of the text http). -/
def isHttpUrl (s : String) : Bool :=
  match s.data with
  | 'h' :: 't' :: 't' :: 'p' :: _ => true
  | _ => false

/-- Simplified model of Url.join: an absolute http URI replaces the base, any other URI is
appended to the base directory string. -/
def joinUrl (base uri : String) : String :=
  if isHttpUrl uri then uri else base ++ uri

/-- Model of main.rs lines 148-152: the selected variant URI of a master playlist is joined
against the base URL when one exists; with no base URL the program bails out. -/
def resolveMasterMediaUrl (base : Option String) (uri : String) : Except DlErr String :=
  match base with
  | some b => Except.ok (joinUrl b uri)
  | none => Except.error DlErr.missingBaseUrl

/-- Model of download_and_merge lines 281-285: a segment URI is joined against the base URL
when one exists and otherwise used verbatim; this branch has no error path. -/
def segUrlResolution (base : Option String) (uri : String) : Except DlErr String :=
  match base with
  | some b => Except.ok (joinUrl b uri)
  | none => Except.ok uri

/-- Value of one hexadecimal digit character, none for a non-hex character. -/
def hexDigitVal (c : Char) : Option Nat :=
  if '0' ≤ c ∧ c ≤ '9' then some (c.toNat - '0'.toNat)
  else if 'a' ≤ c ∧ c ≤ 'f' then some (c.toNat - 'a'.toNat + 10)
  else if 'A' ≤ c ∧ c ≤ 'F' then some (c.toNat - 'A'.toNat + 10)
  else none

/-- Model of hex decoding as performed by the hex crate: the string is consumed two
characters at a time; an odd length or a non-hex character makes decoding fail. -/
def hexDecode : List Char → Option (List Nat)
  | [] => some []
  | [_] => none
  | c1 :: c2 :: rest =>
    match hexDigitVal c1, hexDigitVal c2, hexDecode rest with
    | some h, some l, some t => some ((h * 16 + l) :: t)
    | _, _, _ => none

/-- Model of trim_start_matches applied with the pattern 0x: every leading occurrence of
the two characters 0 and x is removed. -/
def trimStart0x : List Char → List Char
  | '0' :: 'x' :: rest => trimStart0x rest
  | s => s

/-- Model of download_and_merge lines 268-269: the IV attribute is stripped of leading 0x
occurrences and hex decoded; a decode failure is the IV format error.  No check of the
decoded length is performed here. -/
def decodeIv (s : List Char) : Option (List Nat) :=
  hexDecode (trimStart0x s)

/-- Validity of a hex string: even length and only hex digit characters. -/
def isValidHex (s : List Char) : Bool :=
  (s.length % 2 == 0) && s.all fun c => (hexDigitVal c).isSome

theorem isValidHex_cons2 (c1 c2 : Char) (rest : List Char) :
    isValidHex (c1 :: c2 :: rest) =
      ((hexDigitVal c1).isSome && ((hexDigitVal c2).isSome && isValidHex rest)) := by
  unfold isValidHex
  rw [List.length_cons, List.length_cons, List.all_cons, List.all_cons]
  have hm : (rest.length + 1 + 1) % 2 = rest.length % 2 := by omega
  rw [hm]
  cases hb1 : (hexDigitVal c1).isSome <;> cases hb2 : (hexDigitVal c2).isSome <;>
    cases hb3 : (rest.length % 2 == 0) <;> simp [hb1, hb2, hb3]

theorem hexDecode_isSome (s : List Char) : (hexDecode s).isSome = isValidHex s := by
  induction s using hexDecode.induct with
  | case1 => rfl
  | case2 c => rfl
  | case3 c1 c2 rest h l t h3 h2 h1 ih =>
    rw [isValidHex_cons2, ← ih]
    simp [hexDecode, h1, h2, h3]
  | case4 c1 c2 rest hno ih =>
    rw [isValidHex_cons2, ← ih]
    rcases e1 : hexDigitVal c1 with _ | h <;> rcases e2 : hexDigitVal c2 with _ | l <;>
      rcases e3 : hexDecode rest with _ | t <;> simp [hexDecode, e1, e2, e3]

/-- Key attributes of the first segment as they come from the parsed playlist:
both the URI attribute and the IV attribute are optional. -/
structure HlsKeyAttrs where
  uri : Option String
  iv : Option String
deriving DecidableEq

/-- Outcome of the key resolution block of download_and_merge (lines 247-273).  The
unwrapNone constructor models a process abort caused by unwrap applied to None. -/
inductive KeyRes
  | unwrapNone
  | err (e : DlErr)
  | ok (res : Option (List Nat × List Nat))
deriving DecidableEq

/-- Model of download_and_merge lines 251-255: the key URI is joined against the base URL
when one exists, and otherwise parsed as an absolute URL, which fails for a relative URI. -/
def keyUrlOf (base : Option String) (u : String) : Except DlErr String :=
  match base with
  | some b => Except.ok (joinUrl b u)
  | none => if isHttpUrl u then Except.ok u else Except.error DlErr.urlParse

/-- Model of download_and_merge lines 247-273: key resolution looks only at the first
segment.  The URI attribute is unwrapped before anything else, the key bytes are fetched
(the fetch argument models the HTTP GET, returning none on a network or status failure),
then the IV attribute is unwrapped and hex decoded. -/
def resolveKey (base : Option String) (firstKey : Option HlsKeyAttrs)
    (fetch : String → Option (List Nat)) : KeyRes :=
  match firstKey with
  | none => KeyRes.ok none
  | some k =>
    match k.uri with
    | none => KeyRes.unwrapNone
    | some u =>
      match keyUrlOf base u with
      | Except.error e => KeyRes.err e
      | Except.ok keyUrl =>
        match fetch keyUrl with
        | none => KeyRes.err DlErr.keyFetch
        | some bytes =>
          match k.iv with
          | none => KeyRes.unwrapNone
          | some ivs =>
            match decodeIv ivs.data with
            | none => KeyRes.err DlErr.ivFormat
            | some iv => KeyRes.ok (some (bytes, iv))

/-- Resolution of a variant stream, in pixels. -/
structure Resolution where
  width : Nat
  height : Nat
deriving DecidableEq

/-- One variant of a master playlist, as consumed by main.rs lines 127-138. -/
structure VariantStream where
  uri : String
  bandwidth : Nat
  resolution : Option Resolution
deriving DecidableEq

/-- Model of the max_by_key key of main.rs lines 130-137: resolution area with a missing
resolution counted as zero, paired with the bandwidth. -/
def variantKey (v : VariantStream) : Nat × Nat :=
  ((v.resolution.map fun r => r.width * r.height).getD 0, v.bandwidth)

/-- Strict lexicographic order on selection keys. -/
def keyLt (p q : Nat × Nat) : Prop :=
  p.1 < q.1 ∨ (p.1 = q.1 ∧ p.2 < q.2)

/-- Lexicographic order on selection keys. -/
def keyLe (p q : Nat × Nat) : Prop :=
  p.1 < q.1 ∨ (p.1 = q.1 ∧ p.2 ≤ q.2)

instance (p q : Nat × Nat) : Decidable (keyLt p q) :=
  inferInstanceAs (Decidable (p.1 < q.1 ∨ (p.1 = q.1 ∧ p.2 < q.2)))

instance (p q : Nat × Nat) : Decidable (keyLe p q) :=
  inferInstanceAs (Decidable (p.1 < q.1 ∨ (p.1 = q.1 ∧ p.2 ≤ q.2)))

theorem keyLe_refl (p : Nat × Nat) : keyLe p p := by
  unfold keyLe; omega

theorem keyLe_trans {p q r : Nat × Nat} (h1 : keyLe p q) (h2 : keyLe q r) : keyLe p r := by
  unfold keyLe at h1 h2 ⊢; omega

theorem keyLe_of_not_lt {p q : Nat × Nat} (h : ¬ keyLt p q) : keyLe q p := by
  unfold keyLt at h; unfold keyLe; omega

theorem keyLe_of_lt {p q : Nat × Nat} (h : keyLt p q) : keyLe p q := by
  unfold keyLt at h; unfold keyLe; omega

/-- One folding step of the Rust max_by_key iterator combinator: with no current maximum
the element is taken; otherwise the current maximum is kept only when its key is strictly
greater, so on equal keys the later element wins. -/
def selStep (acc : Option VariantStream) (x : VariantStream) : Option VariantStream :=
  match acc with
  | none => some x
  | some m => if keyLt (variantKey x) (variantKey m) then some m else some x

/-- Model of the max_by_key call of main.rs line 130. -/
def maxByKey (l : List VariantStream) : Option VariantStream :=
  l.foldl selStep none

/-- Model of main.rs lines 127-138: best variant selection, failing on an empty variant
list. -/
def selectBestVariant (l : List VariantStream) : Except DlErr VariantStream :=
  match maxByKey l with
  | some v => Except.ok v
  | none => Except.error DlErr.noVariants

theorem foldl_selStep_spec (l : List VariantStream) :
    ∀ m : VariantStream, ∃ v, l.foldl selStep (some m) = some v ∧ (v = m ∨ v ∈ l) ∧
      keyLe (variantKey m) (variantKey v) ∧
      ∀ u ∈ l, keyLe (variantKey u) (variantKey v) := by
  induction l with
  | nil =>
    intro m
    exact ⟨m, rfl, Or.inl rfl, keyLe_refl _, by intro u hu; cases hu⟩
  | cons x rest ih =>
    intro m
    by_cases hlt : keyLt (variantKey x) (variantKey m)
    · obtain ⟨v, hfold, hmem, hge, hall⟩ := ih m
      refine ⟨v, ?_, ?_, hge, ?_⟩
      · simpa [List.foldl_cons, selStep, if_pos hlt] using hfold
      · rcases hmem with h | h
        · exact Or.inl h
        · exact Or.inr (List.mem_cons_of_mem _ h)
      · intro u hu
        rcases List.mem_cons.mp hu with rfl | hu
        · exact keyLe_trans (keyLe_trans (keyLe_of_lt hlt) hge) (keyLe_refl _)
        · exact hall u hu
    · obtain ⟨v, hfold, hmem, hge, hall⟩ := ih x
      refine ⟨v, ?_, ?_, ?_, ?_⟩
      · simpa [List.foldl_cons, selStep, if_neg hlt] using hfold
      · rcases hmem with h | h
        · exact Or.inr (h ▸ List.mem_cons_self x rest)
        · exact Or.inr (List.mem_cons_of_mem _ h)
      · exact keyLe_trans (keyLe_of_not_lt hlt) hge
      · intro u hu
        rcases List.mem_cons.mp hu with rfl | hu
        · exact hge
        · exact hall u hu

/-- One HTTP response to a segment GET attempt: a transport error, or a status code with
the body bytes that a successful read would produce. -/
inductive HttpResp
  | transport
  | status (code : Nat) (body : List Nat)
deriving DecidableEq

/-- Model of the is_success test of reqwest: a 2xx status code. -/
def respOk : HttpResp → Bool
  | HttpResp.transport => false
  | HttpResp.status c _ => decide (200 ≤ c ∧ c < 300)

/-- Body bytes of a response. -/
def respBody : HttpResp → List Nat
  | HttpResp.transport => []
  | HttpResp.status _ b => b

/-- Observable outcome of the retry loop of one segment task: how many GET attempts were
made, how many fixed inter-retry delays were waited, and the downloaded bytes on success
(none models the terminal bail after the last failed attempt). -/
structure RetryOutcome where
  attempts : Nat
  sleeps : Nat
  result : Option (List Nat)
deriving DecidableEq

/-- Model of the retry loop of download_and_merge lines 297-331, unrolled from a given
attempt number with a given number of remaining loop iterations: a 2xx response returns
at once, any other outcome falls through, sleeping only when the attempt counter is
strictly below the retry limit. -/
def runRetryGo (resps : Nat → HttpResp) (retries : Nat) : Nat → Nat → RetryOutcome
  | _, 0 => ⟨0, 0, none⟩
  | attempt, rem + 1 =>
    if respOk (resps attempt) then ⟨1, 0, some (respBody (resps attempt))⟩
    else
      let t := runRetryGo resps retries (attempt + 1) rem
      ⟨t.attempts + 1, (if attempt < retries then 1 else 0) + t.sleeps, t.result⟩

/-- Model of the whole retry loop (for attempt in 1..=retries) of one segment task. -/
def runRetry (resps : Nat → HttpResp) (retries : Nat) : RetryOutcome :=
  runRetryGo resps retries 1 retries

theorem runRetryGo_attempts_le (resps : Nat → HttpResp) (retries : Nat) :
    ∀ rem attempt, (runRetryGo resps retries attempt rem).attempts ≤ rem := by
  intro rem
  induction rem with
  | zero => intro attempt; simp [runRetryGo]
  | succ m ih =>
    intro attempt
    by_cases h : respOk (resps attempt)
    · simp [runRetryGo, h]
    · have := ih (attempt + 1)
      simp only [runRetryGo, if_neg h]
      omega

theorem runRetryGo_all_fail (resps : Nat → HttpResp) (retries : Nat) :
    ∀ rem attempt, attempt + rem = retries + 1 →
      (∀ k, attempt ≤ k → k ≤ retries → respOk (resps k) = false) →
      runRetryGo resps retries attempt rem = ⟨rem, rem - 1, none⟩ := by
  intro rem
  induction rem with
  | zero => intro attempt _ _; rfl
  | succ m ih =>
    intro attempt hsum hfail
    have hle : attempt ≤ retries := by omega
    have hfa : respOk (resps attempt) = false := hfail attempt le_rfl hle
    have hrec : runRetryGo resps retries (attempt + 1) m = ⟨m, m - 1, none⟩ := by
      apply ih
      · omega
      · intro k hk1 hk2
        exact hfail k (by omega) hk2
    simp only [runRetryGo, hfa, Bool.false_eq_true, if_false, hrec]
    by_cases hm : m = 0
    · subst hm
      have : ¬ attempt < retries := by omega
      simp [this]
    · have : attempt < retries := by omega
      simp only [this, if_pos]
      congr 1 <;> omega

theorem runRetryGo_first_success (resps : Nat → HttpResp) (retries : Nat) :
    ∀ rem attempt j, attempt ≤ j → j < attempt + rem → j ≤ retries →
      respOk (resps j) = true →
      (∀ k, attempt ≤ k → k < j → respOk (resps k) = false) →
      runRetryGo resps retries attempt rem =
        ⟨j - attempt + 1, j - attempt, some (respBody (resps j))⟩ := by
  intro rem
  induction rem with
  | zero => intro attempt j h1 h2 _ _ _; omega
  | succ m ih =>
    intro attempt j h1 h2 h3 hok hfail
    by_cases hej : attempt = j
    · subst hej
      simp [runRetryGo, hok]
    · have hlt : attempt < j := by omega
      have hfa : respOk (resps attempt) = false := hfail attempt le_rfl hlt
      have hrec := ih (attempt + 1) j (by omega) (by omega) h3 hok
        (fun k hk1 hk2 => hfail k (by omega) hk2)
      simp only [runRetryGo, hfa, Bool.false_eq_true, if_false, hrec]
      have : attempt < retries := by omega
      simp only [this, if_pos]
      congr 1 <;> omega

/-- State of the download controller of download_and_merge (lines 275-341).  Tasks are
spawned in index order by the stream combinator; waiting holds spawned tasks that have not
yet acquired a semaphore permit; running holds tasks whose pipeline (fetch, decrypt, write)
is executing under a permit; permits is the semaphore counter; completed records settled
tasks in completion order together with their outcome; store maps a segment index to the
bytes of its temporary file, none when the file does not exist. -/
structure JobState where
  spawned : Nat
  waiting : List Nat
  running : List Nat
  permits : Nat
  completed : List (Nat × Bool)
  store : Nat → Option (List Nat)

/-- Initial controller state: nothing spawned, the semaphore holds K permits, no temporary
files. -/
def init (K : Nat) : JobState :=
  ⟨0, [], [], K, [], fun _ => none⟩

/-- One scheduler step of the controller.  spawn models buffer_unordered pulling the next
enumerated segment and tokio spawn starting its task, allowed while fewer than K spawned
tasks are unsettled; acquire models the semaphore acquire inside the task; finish models
the end of the whole per-segment pipeline: the permit is released, the outcome is recorded
in completion order, and on success the plaintext bytes data i are written to the
temporary store of index i.  The outcome function abstracts the network: outcome i is
whether the retry loop of task i eventually succeeds. -/
inductive Step (n K : Nat) (outcome : Nat → Bool) (data : Nat → List Nat) :
    JobState → JobState → Prop
  | spawn (s : JobState) (h1 : s.spawned < n) (h2 : s.spawned < s.completed.length + K) :
      Step n K outcome data s
        { s with spawned := s.spawned + 1, waiting := s.waiting ++ [s.spawned] }
  | acquire (s : JobState) (i : Nat) (hw : i ∈ s.waiting) (hp : 0 < s.permits) :
      Step n K outcome data s
        { s with waiting := s.waiting.erase i, running := i :: s.running,
                 permits := s.permits - 1 }
  | finish (s : JobState) (i : Nat) (hr : i ∈ s.running) :
      Step n K outcome data s
        { s with running := s.running.erase i, permits := s.permits + 1,
                 completed := s.completed ++ [(i, outcome i)],
                 store := if outcome i = true then
                     (fun j => if j = i then some (data i) else s.store j)
                   else s.store }

/-- Cast of a step along an equality of target states. -/
theorem Step.cast {n K : Nat} {o : Nat → Bool} {d : Nat → List Nat} {s t u : JobState}
    (h : Step n K o d s t) (e : t = u) : Step n K o d s u := e ▸ h

/-- States the controller can reach from the initial state. -/
abbrev Reachable (n K : Nat) (outcome : Nat → Bool) (data : Nat → List Nat)
    (s : JobState) : Prop :=
  Relation.ReflTransGen (Step n K outcome data) (init K) s

/-- Model of the loop (for task in tasks followed by two question marks) of
download_and_merge lines 339-341: the collected task results are scanned in completion
order and the first error, when any, becomes the job result. -/
def jobResult (completed : List (Nat × Bool)) : Option Nat :=
  (completed.find? fun p => !p.2).map Prod.fst

/-- Inductive invariant of the controller. -/
structure Inv (n K : Nat) (outcome : Nat → Bool) (data : Nat → List Nat)
    (s : JobState) : Prop where
  spawned_le : s.spawned ≤ n
  perm : s.running.length + s.permits = K
  w_lt : ∀ i ∈ s.waiting, i < s.spawned
  r_lt : ∀ i ∈ s.running, i < s.spawned
  c_lt : ∀ p ∈ s.completed, p.1 < s.spawned
  w_nd : s.waiting.Nodup
  r_nd : s.running.Nodup
  c_nd : (s.completed.map Prod.fst).Nodup
  wr : ∀ i ∈ s.waiting, i ∉ s.running
  wc : ∀ i ∈ s.waiting, ∀ p ∈ s.completed, p.1 ≠ i
  rc : ∀ i ∈ s.running, ∀ p ∈ s.completed, p.1 ≠ i
  out : ∀ p ∈ s.completed, p.2 = outcome p.1
  store_eq : ∀ i, s.store i =
    if i ∈ s.completed.map Prod.fst ∧ outcome i = true then some (data i) else none

theorem inv_init (n K : Nat) (outcome : Nat → Bool) (data : Nat → List Nat) :
    Inv n K outcome data (init K) := by
  refine ⟨?_, ?_, ?_, ?_, ?_, ?_, ?_, ?_, ?_, ?_, ?_, ?_, ?_⟩ <;>
    simp [init]

theorem inv_step {n K : Nat} {o : Nat → Bool} {d : Nat → List Nat} {s t : JobState}
    (hinv : Inv n K o d s) (hstep : Step n K o d s t) : Inv n K o d t := by
  obtain ⟨hsp, hperm, hwlt, hrlt, hclt, hwnd, hrnd, hcnd, hwr, hwc, hrc, hout, hst⟩ := hinv
  cases hstep with
  | spawn h1 h2 =>
    refine ⟨?_, hperm, ?_, ?_, ?_, ?_, hrnd, hcnd, ?_, ?_, hrc, hout, hst⟩
    · show s.spawned + 1 ≤ n
      omega
    · show ∀ i ∈ s.waiting ++ [s.spawned], i < s.spawned + 1
      intro i hi
      rcases List.mem_append.mp hi with hi | hi
      · exact Nat.lt_succ_of_lt (hwlt i hi)
      · rcases List.mem_singleton.mp hi with rfl
        exact Nat.lt_succ_self _
    · show ∀ i ∈ s.running, i < s.spawned + 1
      intro i hi
      exact Nat.lt_succ_of_lt (hrlt i hi)
    · show ∀ p ∈ s.completed, p.1 < s.spawned + 1
      intro p hp
      exact Nat.lt_succ_of_lt (hclt p hp)
    · show (s.waiting ++ [s.spawned]).Nodup
      refine List.Nodup.append hwnd (List.nodup_singleton _) ?_
      intro a ha hb
      rcases List.mem_singleton.mp hb with rfl
      exact absurd (hwlt _ ha) (lt_irrefl _)
    · show ∀ i ∈ s.waiting ++ [s.spawned], i ∉ s.running
      intro i hi
      rcases List.mem_append.mp hi with hi | hi
      · exact hwr i hi
      · rcases List.mem_singleton.mp hi with rfl
        intro hmem
        exact absurd (hrlt _ hmem) (lt_irrefl _)
    · show ∀ i ∈ s.waiting ++ [s.spawned], ∀ p ∈ s.completed, p.1 ≠ i
      intro i hi p hp
      rcases List.mem_append.mp hi with hi | hi
      · exact hwc i hi p hp
      · rcases List.mem_singleton.mp hi with rfl
        intro he
        exact absurd (he ▸ hclt p hp) (lt_irrefl _)
  | acquire i hw hp =>
    refine ⟨hsp, ?_, ?_, ?_, hclt, ?_, ?_, hcnd, ?_, ?_, ?_, hout, hst⟩
    · show (i :: s.running).length + (s.permits - 1) = K
      have : (i :: s.running).length = s.running.length + 1 := by simp
      omega
    · show ∀ j ∈ s.waiting.erase i, j < s.spawned
      intro j hj
      exact hwlt j (List.erase_subset _ _ hj)
    · show ∀ j ∈ i :: s.running, j < s.spawned
      intro j hj
      rcases List.mem_cons.mp hj with rfl | hj
      · exact hwlt j hw
      · exact hrlt j hj
    · show (s.waiting.erase i).Nodup
      exact hwnd.erase i
    · show (i :: s.running).Nodup
      exact List.nodup_cons.mpr ⟨hwr i hw, hrnd⟩
    · show ∀ j ∈ s.waiting.erase i, j ∉ i :: s.running
      intro j hj
      have hj2 := hwnd.mem_erase_iff.mp hj
      intro hc
      rcases List.mem_cons.mp hc with rfl | hc
      · exact hj2.1 rfl
      · exact hwr j hj2.2 hc
    · show ∀ j ∈ s.waiting.erase i, ∀ p ∈ s.completed, p.1 ≠ j
      intro j hj p hp
      exact hwc j (List.erase_subset _ _ hj) p hp
    · show ∀ j ∈ i :: s.running, ∀ p ∈ s.completed, p.1 ≠ j
      intro j hj p hp
      rcases List.mem_cons.mp hj with rfl | hj
      · exact hwc j hw p hp
      · exact hrc j hj p hp
  | finish i hri =>
    have hlen : (s.running.erase i).length = s.running.length - 1 :=
      List.length_erase_of_mem hri
    have hpos : 0 < s.running.length := List.length_pos_of_mem hri
    refine ⟨hsp, ?_, hwlt, ?_, ?_, hwnd, hrnd.erase i, ?_, ?_, ?_, ?_, ?_, ?_⟩
    · show (s.running.erase i).length + (s.permits + 1) = K
      omega
    · show ∀ j ∈ s.running.erase i, j < s.spawned
      intro j hj
      exact hrlt j (List.erase_subset _ _ hj)
    · show ∀ p ∈ s.completed ++ [(i, o i)], p.1 < s.spawned
      intro p hp
      rcases List.mem_append.mp hp with hp | hp
      · exact hclt p hp
      · rcases List.mem_singleton.mp hp with rfl
        exact hrlt i hri
    · show ((s.completed ++ [(i, o i)]).map Prod.fst).Nodup
      rw [List.map_append]
      refine List.Nodup.append hcnd (List.nodup_singleton _) ?_
      intro a ha hb
      rcases List.mem_singleton.mp hb with rfl
      obtain ⟨p, hp, hfst⟩ := List.mem_map.mp ha
      exact hrc _ hri p hp hfst
    · show ∀ j ∈ s.waiting, j ∉ s.running.erase i
      intro j hj hc
      exact hwr j hj (List.erase_subset _ _ hc)
    · show ∀ j ∈ s.waiting, ∀ p ∈ s.completed ++ [(i, o i)], p.1 ≠ j
      intro j hj p hp
      rcases List.mem_append.mp hp with hp | hp
      · exact hwc j hj p hp
      · rcases List.mem_singleton.mp hp with rfl
        intro he
        exact hwr j hj (he ▸ hri)
    · show ∀ j ∈ s.running.erase i, ∀ p ∈ s.completed ++ [(i, o i)], p.1 ≠ j
      intro j hj p hp
      have hj2 := hrnd.mem_erase_iff.mp hj
      rcases List.mem_append.mp hp with hp | hp
      · exact hrc j hj2.2 p hp
      · rcases List.mem_singleton.mp hp with rfl
        intro he
        exact hj2.1 he.symm
    · show ∀ p ∈ s.completed ++ [(i, o i)], p.2 = o p.1
      intro p hp
      rcases List.mem_append.mp hp with hp | hp
      · exact hout p hp
      · rcases List.mem_singleton.mp hp with rfl
        rfl
    · show ∀ j, (if o i = true then
          (fun j => if j = i then some (d i) else s.store j) else s.store) j =
        if j ∈ (s.completed ++ [(i, o i)]).map Prod.fst ∧ o j = true then some (d j)
        else none
      intro j
      have hnew : ∀ a : Nat,
          (a ∈ (s.completed ++ [(i, o i)]).map Prod.fst) ↔
            a ∈ s.completed.map Prod.fst ∨ a = i := by
        intro a
        simp [List.mem_append]
      by_cases ho : o i = true
      · rw [if_pos ho]
        by_cases hji : j = i
        · subst hji
          have hcond : j ∈ (s.completed ++ [(j, o j)]).map Prod.fst ∧ o j = true :=
            ⟨(hnew j).mpr (Or.inr rfl), ho⟩
          rw [if_pos hcond]
          simp
        · simp only [if_neg hji]
          rw [hst j]
          by_cases hjF : j ∈ s.completed.map Prod.fst ∧ o j = true
          · have hcond : j ∈ (s.completed ++ [(i, o i)]).map Prod.fst ∧ o j = true :=
              ⟨(hnew j).mpr (Or.inl hjF.1), hjF.2⟩
            rw [if_pos hjF, if_pos hcond]
          · rw [if_neg hjF, if_neg]
            intro hcon
            rcases (hnew j).mp hcon.1 with hm | hm
            · exact hjF ⟨hm, hcon.2⟩
            · exact hji hm
      · rw [if_neg ho, hst j]
        by_cases hjF : j ∈ s.completed.map Prod.fst ∧ o j = true
        · have hcond : j ∈ (s.completed ++ [(i, o i)]).map Prod.fst ∧ o j = true :=
            ⟨(hnew j).mpr (Or.inl hjF.1), hjF.2⟩
          rw [if_pos hjF, if_pos hcond]
        · rw [if_neg hjF, if_neg]
          intro hcon
          rcases (hnew j).mp hcon.1 with hm | hm
          · exact hjF ⟨hm, hcon.2⟩
          · rw [hm] at hcon
            exact ho hcon.2

theorem reachable_inv {n K : Nat} {o : Nat → Bool} {d : Nat → List Nat} {s : JobState}
    (hr : Reachable n K o d s) : Inv n K o d s := by
  induction hr with
  | refl => exact inv_init n K o d
  | tail hsteps hstep ih => exact inv_step ih hstep

/-- In any run that settled all n tasks, every index below n occurs among the completed
indices, and in particular every task was started. -/
theorem completed_covers {n K : Nat} {o : Nat → Bool} {d : Nat → List Nat} {s : JobState}
    (hr : Reachable n K o d s) (hlen : s.completed.length = n) :
    s.spawned = n ∧ ∀ i, i < n → i ∈ s.completed.map Prod.fst := by
  have hinv := reachable_inv hr
  have hFnd : (s.completed.map Prod.fst).Nodup := hinv.c_nd
  have hFlt : ∀ i ∈ s.completed.map Prod.fst, i < s.spawned := by
    intro i hi
    obtain ⟨p, hp, hfst⟩ := List.mem_map.mp hi
    exact hfst ▸ hinv.c_lt p hp
  have hFlen : (s.completed.map Prod.fst).length = n := by
    rw [List.length_map, hlen]
  have hsub : (s.completed.map Prod.fst).toFinset ⊆ Finset.range s.spawned := by
    intro i hi
    exact Finset.mem_range.mpr (hFlt i (List.mem_toFinset.mp hi))
  have hcard : (s.completed.map Prod.fst).toFinset.card = n := by
    rw [List.toFinset_card_of_nodup hFnd, hFlen]
  have h1 : n ≤ s.spawned := by
    have := Finset.card_le_card hsub
    rw [hcard, Finset.card_range] at this
    exact this
  have hsp : s.spawned = n := le_antisymm hinv.spawned_le h1
  refine ⟨hsp, ?_⟩
  have heq : (s.completed.map Prod.fst).toFinset = Finset.range n := by
    apply Finset.eq_of_subset_of_card_le
    · rw [← hsp]
      exact hsub
    · rw [hcard, Finset.card_range]
  intro i hi
  have : i ∈ (s.completed.map Prod.fst).toFinset := by
    rw [heq]
    exact Finset.mem_range.mpr hi
  exact List.mem_toFinset.mp this

/-- Command line arguments of the program that matter to the claims (struct Args of
main.rs). -/
structure Args where
  concurrency : Nat
  retries : Nat
  keep_temp : Bool
deriving DecidableEq

/-- Model of the merge loop of download_and_merge lines 353-361: the segment indices are
visited in ascending order; the temporary store of each index is read (a missing store
fails the job on the spot) and appended to the output, and the store is removed
unconditionally.  The first component is the produced output (none on failure), the
second the state of the temporary stores afterwards. -/
def mergeRun : List Nat → List Nat → (Nat → Option (List Nat)) →
    Option (List Nat) × (Nat → Option (List Nat))
  | [], acc, store => (some acc, store)
  | i :: rest, acc, store =>
    match store i with
    | none => (none, store)
    | some chunk => mergeRun rest (acc ++ chunk) (fun j => if j = i then none else store j)

/-- Model of the merge phase of download_and_merge over segment indices 0 to n-1.  The
args parameter is the full argument record the function receives; its keep_temp field is
not consulted anywhere in the merge loop (in the source keep_temp only gates the removal
of the merged file temp_merged.ts in main, lines 172-174). -/
def mergePhase (args : Args) (n : Nat) (store : Nat → Option (List Nat)) :
    Option (List Nat) × (Nat → Option (List Nat)) :=
  mergeRun (List.range n) [] store

/-- Model of the control flow of download_and_merge around the merge: when the task scan
finds a failure the function returns early with that error and the merge loop never runs,
leaving every temporary store untouched; otherwise the merge loop runs. -/
def jobFinalStore (args : Args) (n : Nat) (s : JobState) : Nat → Option (List Nat) :=
  match jobResult s.completed with
  | some _ => s.store
  | none => (mergePhase args n s.store).2

theorem mergeRun_none_stays (l : List Nat) :
    ∀ acc store j, store j = none → (mergeRun l acc store).2 j = none := by
  induction l with
  | nil => intro acc store j hj; exact hj
  | cons i rest ih =>
    intro acc store j hj
    cases hi : store i with
    | none => simp only [mergeRun, hi]; exact hj
    | some chunk =>
      simp only [mergeRun, hi]
      apply ih
      by_cases hji : j = i
      · simp [hji]
      · simp [hji, hj]

theorem mergeRun_success_deletes (l : List Nat) :
    ∀ acc store, (mergeRun l acc store).1.isSome = true →
      ∀ i ∈ l, (mergeRun l acc store).2 i = none := by
  induction l with
  | nil => intro acc store _ i hi; cases hi
  | cons i rest ih =>
    intro acc store hsome j hj
    cases hi : store i with
    | none => simp [mergeRun, hi] at hsome
    | some chunk =>
      simp only [mergeRun, hi] at hsome ⊢
      rcases List.mem_cons.mp hj with rfl | hj
      · apply mergeRun_none_stays
        simp
      · exact ih _ _ hsome j hj

theorem mergeRun_all_some (f : Nat → List Nat) (l : List Nat) :
    ∀ acc store, l.Nodup → (∀ i ∈ l, store i = some (f i)) →
      (mergeRun l acc store).1 = some (acc ++ (l.map f).flatten) := by
  induction l with
  | nil => intro acc store _ _; simp [mergeRun]
  | cons i rest ih =>
    intro acc store hnd hall
    have hi : store i = some (f i) := hall i (List.mem_cons_self i rest)
    simp only [mergeRun, hi]
    have hnd2 := List.nodup_cons.mp hnd
    have hrest : ∀ j ∈ rest, (fun j => if j = i then none else store j) j = some (f j) := by
      intro j hj
      have hji : j ≠ i := fun he => hnd2.1 (he ▸ hj)
      simp only [if_neg hji]
      exact hall j (List.mem_cons_of_mem _ hj)
    rw [ih (acc ++ f i) _ hnd2.2 hrest]
    simp [List.append_assoc]

theorem jobResult_first_failure (post : List (Nat × Bool)) (i : Nat) :
    ∀ pre : List (Nat × Bool), (∀ p ∈ pre, p.2 = true) →
      jobResult (pre ++ (i, false) :: post) = some i := by
  intro pre
  induction pre with
  | nil => intro _; simp [jobResult, List.find?]
  | cons q qs ih =>
    intro hpre
    have hq : q.2 = true := hpre q (List.mem_cons_self q qs)
    have hqs : ∀ p ∈ qs, p.2 = true := fun p hp => hpre p (List.mem_cons_of_mem _ hp)
    simp only [List.cons_append, jobResult, List.find?, hq, Bool.not_true]
    exact ih hqs

/-- Outcome function of a run where every segment task succeeds. -/
def oT : Nat → Bool := fun _ => true

/-- Plaintext bytes of segment i in the concrete success run. -/
def dA : Nat → List Nat := fun i => [i]

/-- Outcome function of a run where every segment task fails. -/
def oF : Nat → Bool := fun _ => false

/-- Plaintext function of the concrete failure run (never used by a failing task). -/
def dF : Nat → List Nat := fun _ => []

def sA1 : JobState := ⟨1, [0], [], 2, [], fun _ => none⟩

def sA2 : JobState := ⟨2, [0, 1], [], 2, [], fun _ => none⟩

def sA3 : JobState := ⟨2, [0], [1], 1, [], fun _ => none⟩

def sA4 : JobState := ⟨2, [], [0, 1], 0, [], fun _ => none⟩

def sA5 : JobState := ⟨2, [], [0], 1, [(1, true)], fun j => if j = 1 then some [1] else none⟩

def sA6 : JobState :=
  ⟨2, [], [], 2, [(1, true), (0, true)],
    fun j => if j = 0 then some [0] else if j = 1 then some [1] else none⟩

/-- A two segment job under concurrency two can reach the state where both pipelines are
in flight at once. -/
theorem reach_sA4 : Reachable 2 2 oT dA sA4 := by
  have t1 : Step 2 2 oT dA (init 2) sA1 :=
    Step.cast (Step.spawn (init 2) (by decide) (by decide)) rfl
  have t2 : Step 2 2 oT dA sA1 sA2 :=
    Step.cast (Step.spawn sA1 (by decide) (by decide)) rfl
  have t3 : Step 2 2 oT dA sA2 sA3 :=
    Step.cast (Step.acquire sA2 1 (by decide) (by decide)) rfl
  have t4 : Step 2 2 oT dA sA3 sA4 :=
    Step.cast (Step.acquire sA3 0 (by decide) (by decide)) rfl
  exact Relation.ReflTransGen.tail (Relation.ReflTransGen.tail
    (Relation.ReflTransGen.tail (Relation.ReflTransGen.tail Relation.ReflTransGen.refl t1)
      t2) t3) t4

/-- A run of a two segment job under concurrency two in which segment 1 finishes before
segment 0 is reachable, ending with both temporary stores written. -/
theorem reach_sA6 : Reachable 2 2 oT dA sA6 := by
  have t5 : Step 2 2 oT dA sA4 sA5 :=
    Step.cast (Step.finish sA4 1 (by decide)) rfl
  have t6 : Step 2 2 oT dA sA5 sA6 :=
    Step.cast (Step.finish sA5 0 (by decide)) rfl
  exact Relation.ReflTransGen.tail (Relation.ReflTransGen.tail reach_sA4 t5) t6

def sB1 : JobState := ⟨1, [0], [], 1, [], fun _ => none⟩

def sB2 : JobState := ⟨1, [], [0], 0, [], fun _ => none⟩

def sB3 : JobState := ⟨1, [], [], 1, [(0, false)], fun _ => none⟩

def sB4 : JobState := ⟨2, [1], [], 1, [(0, false)], fun _ => none⟩

def sB5 : JobState := ⟨2, [], [1], 0, [(0, false)], fun _ => none⟩

def sB6 : JobState := ⟨2, [], [], 1, [(0, false), (1, false)], fun _ => none⟩

/-- First three steps of a two segment job under concurrency one where task 0 fails. -/
theorem reach_sB3 : Reachable 2 1 oF dF sB3 := by
  have t1 : Step 2 1 oF dF (init 1) sB1 :=
    Step.cast (Step.spawn (init 1) (by decide) (by decide)) rfl
  have t2 : Step 2 1 oF dF sB1 sB2 :=
    Step.cast (Step.acquire sB1 0 (by decide) (by decide)) rfl
  have t3 : Step 2 1 oF dF sB2 sB3 :=
    Step.cast (Step.finish sB2 0 (by decide)) rfl
  exact Relation.ReflTransGen.tail (Relation.ReflTransGen.tail
    (Relation.ReflTransGen.tail Relation.ReflTransGen.refl t1) t2) t3

/-- The failing run continued to completion of both tasks. -/
theorem reach_sB6 : Reachable 2 1 oF dF sB6 := by
  have t4 : Step 2 1 oF dF sB3 sB4 :=
    Step.cast (Step.spawn sB3 (by decide) (by decide)) rfl
  have t5 : Step 2 1 oF dF sB4 sB5 :=
    Step.cast (Step.acquire sB4 1 (by decide) (by decide)) rfl
  have t6 : Step 2 1 oF dF sB5 sB6 :=
    Step.cast (Step.finish sB5 1 (by decide)) rfl
  exact Relation.ReflTransGen.tail (Relation.ReflTransGen.tail
    (Relation.ReflTransGen.tail reach_sB3 t4) t5) t6

/-- Temporary store holding one written segment file, used in the merge examples. -/
def store0 : Nat → Option (List Nat) := fun j => if j = 0 then some [7] else none

/-- Response schedule whose second attempt succeeds with status 200 and body [5]. -/
def resps4 : Nat → HttpResp := fun k => if k = 2 then HttpResp.status 200 [5] else HttpResp.transport

/-- Response schedule where every attempt is a transport error. -/
def rFail : Nat → HttpResp := fun _ => HttpResp.transport

def v720 : VariantStream := ⟨"a.m3u8", 1000000, some ⟨1280, 720⟩⟩

def v1080 : VariantStream := ⟨"b.m3u8", 800000, some ⟨1920, 1080⟩⟩

def v480 : VariantStream := ⟨"c.m3u8", 3000000, some ⟨854, 480⟩⟩

/-- Variant list of testable property 5 of the spec. -/
def exVariants : List VariantStream := [v720, v1080, v480]

/-- Claim C1: for every job in which all N segment tasks succeeded, the merged output byte
stream equals the concatenation of the plaintext of segment 0, then segment 1, up to
segment N-1, each exactly once, for every order in which the segment tasks completed. -/
theorem merge_order_invariance (n K : Nat) (o : Nat → Bool) (d : Nat → List Nat)
    (s : JobState) (args : Args) (hr : Reachable n K o d s)
    (hlen : s.completed.length = n) (hsucc : ∀ p ∈ s.completed, p.2 = true) :
    (mergePhase args n s.store).1 = some ((List.range n).map d).flatten := by
  have hcov := completed_covers hr hlen
  have hinv := reachable_inv hr
  have hall : ∀ i ∈ List.range n, s.store i = some (d i) := by
    intro i hi
    have hiF : i ∈ s.completed.map Prod.fst := hcov.2 i (List.mem_range.mp hi)
    have ho : o i = true := by
      obtain ⟨p, hp, hfst⟩ := List.mem_map.mp hiF
      have h1 := hsucc p hp
      have h2 := hinv.out p hp
      rw [h1] at h2
      exact hfst ▸ h2.symm
    have hsi := hinv.store_eq i
    have hcond : i ∈ s.completed.map Prod.fst ∧ o i = true := ⟨hiF, ho⟩
    rw [if_pos hcond] at hsi
    exact hsi
  have := mergeRun_all_some d (List.range n) [] s.store (List.nodup_range n) hall
  simpa [mergePhase] using this

/-- Witness for claim C1 at a concrete out of order run: segment 1 completed before
segment 0, and the merge still produces the bytes of segment 0 followed by segment 1. -/
theorem merge_order_invariance_witness :
    Reachable 2 2 oT dA sA6 ∧ sA6.completed = [(1, true), (0, true)] ∧
      (mergePhase ⟨8, 3, false⟩ 2 sA6.store).1 = some [0, 1] :=
  ⟨reach_sA6, rfl,
    merge_order_invariance 2 2 oT dA sA6 ⟨8, 3, false⟩ reach_sA6 rfl (by decide)⟩

/-- Counterexample to claim C2: in a reachable state of a two segment job whose first task
already settled as a terminal failure, the scheduler still starts the second task, so the
first terminal failure does not prevent new tasks from being started. -/
theorem cancellation_counterexample :
    Reachable 2 1 oF dF sB3 ∧ (0, false) ∈ sB3.completed ∧
      Step 2 1 oF dF sB3 sB4 ∧ sB4.spawned ≠ sB3.spawned :=
  ⟨reach_sB3, by decide,
    Step.cast (Step.spawn sB3 (by decide) (by decide)) rfl, by decide⟩

/-- Claim C2 amended: the controller awaits every task, so in any run that settled all n
tasks every task was started regardless of failures; the job result is the first terminal
failure in completion order, and outcomes recorded after it cannot change it. -/
theorem first_failure_decides (n K : Nat) (o : Nat → Bool) (d : Nat → List Nat) :
    (∀ s : JobState, Reachable n K o d s → s.completed.length = n → s.spawned = n) ∧
    (∀ (pre post : List (Nat × Bool)) (i : Nat), (∀ p ∈ pre, p.2 = true) →
      jobResult (pre ++ (i, false) :: post) = some i) :=
  ⟨fun _ hr hlen => (completed_covers hr hlen).1,
   fun pre post i hpre => jobResult_first_failure post i pre hpre⟩

/-- Witness for the amended claim C2: in the concrete failing run both tasks were started,
and the job result picks the first failure in completion order whatever comes after it. -/
theorem first_failure_decides_witness :
    (sB6.completed.length = 2 ∧ sB6.spawned = 2) ∧
      jobResult [(5, true), (3, false), (7, true)] = some 3 :=
  ⟨⟨rfl, (first_failure_decides 2 1 oF dF).1 sB6 reach_sB6 rfl⟩,
    (first_failure_decides 2 1 oF dF).2 [(5, true)] [(7, true)] 3 (by decide)⟩

/-- Claim C3: with concurrency bound K, in every reachable state at most K per-segment
pipelines (fetch, decrypt and write together: the running set between permit acquisition
and release) are in flight. -/
theorem concurrency_bound (n K : Nat) (o : Nat → Bool) (d : Nat → List Nat)
    (s : JobState) (hr : Reachable n K o d s) : s.running.length ≤ K := by
  have := (reachable_inv hr).perm
  omega

/-- Witness for claim C3 at the concrete state with both pipelines of a two segment job in
flight under concurrency two. -/
theorem concurrency_bound_witness :
    Reachable 2 2 oT dA sA4 ∧ sA4.running.length ≤ 2 :=
  ⟨reach_sA4, concurrency_bound 2 2 oT dA sA4 reach_sA4⟩

/-- Claim C4: a segment task attempts its GET at most retries times; an attempt succeeds
exactly on a 2xx status, any other status or a transport error being a failed attempt;
when the first success is attempt j the loop stops there with j-1 inter-attempt delays,
one after each failed attempt and none after the last attempt; when all retries attempts
fail the loop slept retries-1 times and the task resolves to the terminal failure. -/
theorem retry_policy (resps : Nat → HttpResp) (retries : Nat) :
    ((runRetry resps retries).attempts ≤ retries) ∧
    ((∀ k, 1 ≤ k → k ≤ retries → respOk (resps k) = false) →
      runRetry resps retries = ⟨retries, retries - 1, none⟩) ∧
    (∀ j, 1 ≤ j → j ≤ retries → respOk (resps j) = true →
      (∀ k, 1 ≤ k → k < j → respOk (resps k) = false) →
      runRetry resps retries = ⟨j, j - 1, some (respBody (resps j))⟩) := by
  refine ⟨runRetryGo_attempts_le resps retries retries 1, ?_, ?_⟩
  · intro hfail
    exact runRetryGo_all_fail resps retries retries 1 (by omega) hfail
  · intro j h1 h2 hok hfail
    have hrun := runRetryGo_first_success resps retries retries 1 j h1 (by omega) h2
      hok hfail
    have hj : j - 1 + 1 = j := by omega
    rw [runRetry, hrun, hj]

/-- Witness for claim C4: with retry limit 3, a transport failure on attempt 1 and a 200
response on attempt 2, the loop makes exactly 2 attempts, sleeps once and returns the
body. -/
theorem retry_policy_witness :
    respOk (resps4 2) = true ∧ runRetry resps4 3 = ⟨2, 1, some [5]⟩ := by
  refine ⟨rfl, ?_⟩
  have hfail : ∀ k, 1 ≤ k → k < 2 → respOk (resps4 k) = false := by
    intro k hk1 hk2
    have hk : k = 1 := by omega
    subst hk
    rfl
  exact (retry_policy resps4 3).2.2 2 (by decide) (by decide) rfl hfail

/-- Counterexample to claim C5: the IV text 00 hex decodes to the single byte 0, whose
length is not 16, yet key resolution succeeds instead of failing with an IV format
error. -/
theorem iv_length_counterexample :
    resolveKey (some "http://h/") (some ⟨some "k.key", some "00"⟩) (fun _ => some [9]) =
      KeyRes.ok (some ([9], [0])) ∧ ([0] : List Nat).length ≠ 16 :=
  ⟨rfl, by decide⟩

/-- Claim C5 amended: key resolution strips leading 0x occurrences from the IV attribute
and hex decodes the rest, failing with the IV format error exactly when that rest is not
valid hex (odd length or a non-hex character); the decoded length is not checked against
16 at key resolution time. -/
theorem iv_decode_spec :
    (∀ s : List Char, decodeIv ('0' :: 'x' :: s) = decodeIv s) ∧
    (∀ s : List Char, (decodeIv s).isSome = isValidHex (trimStart0x s)) :=
  ⟨fun _ => rfl, fun s => hexDecode_isSome (trimStart0x s)⟩

/-- Claim C6: variant selection fails with the no-variants error exactly on the empty
list, and every selected variant belongs to the list and has a maximal key, the key being
the resolution area (zero when the resolution is missing) compared first and the
bandwidth as tie-break. -/
theorem variant_selection_spec (l : List VariantStream) :
    (l = [] ↔ selectBestVariant l = Except.error DlErr.noVariants) ∧
    (∀ v, selectBestVariant l = Except.ok v →
      v ∈ l ∧ ∀ u ∈ l, keyLe (variantKey u) (variantKey v)) := by
  cases l with
  | nil =>
    refine ⟨⟨fun _ => rfl, fun _ => rfl⟩, ?_⟩
    intro v hv
    simp [selectBestVariant, maxByKey] at hv
  | cons x rest =>
    obtain ⟨w, hfold, hmem, hge, hall⟩ := foldl_selStep_spec rest x
    have hmax : maxByKey (x :: rest) = some w := hfold
    have hsel : selectBestVariant (x :: rest) = Except.ok w := by
      unfold selectBestVariant
      rw [hmax]
    refine ⟨⟨fun h => List.noConfusion h, fun h => ?_⟩, fun v hv => ?_⟩
    · rw [hsel] at h
      exact Except.noConfusion h
    · rw [hsel] at hv
      cases hv
      constructor
      · rcases hmem with rfl | hm
        · exact List.mem_cons_self w rest
        · exact List.mem_cons_of_mem _ hm
      · intro u hu
        rcases List.mem_cons.mp hu with rfl | hu
        · exact hge
        · exact hall u hu

/-- Witness for claim C6 on the variant list of testable property 5: the 1080p variant
wins although its bandwidth is the lowest. -/
theorem variant_selection_spec_witness :
    selectBestVariant exVariants = Except.ok v1080 ∧ v1080 ∈ exVariants := by
  have hsel : selectBestVariant exVariants = Except.ok v1080 := rfl
  exact ⟨hsel, ((variant_selection_spec exVariants).2 v1080 hsel).1⟩

/-- Counterexample to claim C7: with a manifest loaded from a local path (no base URL), a
relative segment URI does not produce the missing base URL error; the URI is used
verbatim. -/
theorem seg_relative_uri_counterexample :
    isHttpUrl "seg1.ts" = false ∧
      segUrlResolution none "seg1.ts" = Except.ok "seg1.ts" ∧
      segUrlResolution none "seg1.ts" ≠ Except.error DlErr.missingBaseUrl :=
  ⟨rfl, rfl, fun h => Except.noConfusion h⟩

/-- Claim C7 amended: with no base URL the nested media playlist URI of a master playlist
always fails with the missing base URL error, while segment URI resolution returns the
URI verbatim with no error, a relative one then failing later as an ordinary fetch
error. -/
theorem missing_base_url_spec :
    (∀ uri : String, resolveMasterMediaUrl none uri = Except.error DlErr.missingBaseUrl) ∧
    (∀ uri : String, segUrlResolution none uri = Except.ok uri) :=
  ⟨fun _ => rfl, fun _ => rfl⟩

/-- Counterexample to claim C8: with keep_temp set to true, a successful merge still
deletes the per-segment temporary store. -/
theorem keep_temp_counterexample :
    (Args.mk 8 3 true).keep_temp = true ∧
      (mergePhase ⟨8, 3, true⟩ 1 store0).1 = some [7] ∧
      (mergePhase ⟨8, 3, true⟩ 1 store0).2 0 = none :=
  ⟨rfl, by decide, by decide⟩

/-- Claim C8 amended: after a successful merge every per-segment temporary store below n
is deleted, whatever the keep_temp argument says (keep_temp only governs the merged file
in main); on a job that failed before the merge the merge loop never runs and every
temporary store is left untouched. -/
theorem temp_cleanup (args : Args) (n : Nat) (store : Nat → Option (List Nat)) :
    ((mergePhase args n store).1.isSome = true →
      ∀ i, i < n → (mergePhase args n store).2 i = none) ∧
    (∀ s : JobState, (jobResult s.completed).isSome = true →
      jobFinalStore args n s = s.store) := by
  constructor
  · intro h i hi
    exact mergeRun_success_deletes (List.range n) [] store h i (List.mem_range.mpr hi)
  · intro s h
    cases hj : jobResult s.completed with
    | none => rw [hj] at h; cases h
    | some e => simp [jobFinalStore, hj]

/-- Witness for the amended claim C8: a one segment merge succeeds and its temporary
store is gone afterwards even though keep_temp is set. -/
theorem temp_cleanup_witness :
    (mergePhase ⟨8, 3, true⟩ 1 store0).1.isSome = true ∧
      (mergePhase ⟨8, 3, true⟩ 1 store0).2 0 = none :=
  ⟨by decide, (temp_cleanup ⟨8, 3, true⟩ 1 store0).1 (by decide) 0 (by decide)⟩

/-- Claim C9: with retry limit zero the retry loop makes no GET attempt, sleeps never and
resolves to the terminal failure, and a job with at least one segment whose task outcomes
all carry that failure ends with a failing job result. -/
theorem zero_retries_fails (resps : Nat → HttpResp) :
    runRetry resps 0 = ⟨0, 0, none⟩ ∧
    (∀ (n K : Nat) (o : Nat → Bool) (d : Nat → List Nat) (s : JobState),
      (∀ i, o i = false) → Reachable n K o d s → s.completed.length = n → 1 ≤ n →
      (jobResult s.completed).isSome = true) := by
  constructor
  · rfl
  · intro n K o d s hall hr hlen hn
    have hinv := reachable_inv hr
    cases hc : s.completed with
    | nil =>
      rw [hc] at hlen
      simp at hlen
      omega
    | cons p rest =>
      have hp : p.2 = false := by
        have hoeq := hinv.out p (by rw [hc]; exact List.mem_cons_self p rest)
        rw [hoeq, hall p.1]
      simp [jobResult, List.find?, hp]

/-- Witness for claim C9: the zero retry loop on an all-failure schedule, and the failing
two segment run, whose job result is a failure. -/
theorem zero_retries_fails_witness :
    runRetry rFail 0 = ⟨0, 0, none⟩ ∧ (jobResult sB6.completed).isSome = true :=
  ⟨(zero_retries_fails rFail).1,
    (zero_retries_fails rFail).2 2 1 oF dF sB6 (fun _ => rfl) reach_sB6 rfl
      (by decide)⟩

/-- Counterexample to claim C10: with the IV attribute absent but the key fetch failing,
key resolution returns the key fetch error rather than aborting on an unwrap of None. -/
theorem key_fetch_failure_counterexample :
    resolveKey (some "http://h/") (some ⟨some "k.key", none⟩) (fun _ => none) =
      KeyRes.err DlErr.keyFetch ∧ KeyRes.err DlErr.keyFetch ≠ KeyRes.unwrapNone :=
  ⟨rfl, fun h => KeyRes.noConfusion h⟩

/-- Claim C10 amended: key resolution aborts on an unwrap of None whenever the URI
attribute of the first segment key reference is absent, and whenever its IV attribute is
absent while the key URL resolved and the key fetch succeeded; with an absent IV and a
failed fetch the fetch error is returned first instead. -/
theorem key_attrs_unwrap :
    (∀ (base : Option String) (iv : Option String) (fetch : String → Option (List Nat)),
      resolveKey base (some ⟨none, iv⟩) fetch = KeyRes.unwrapNone) ∧
    (∀ (base : Option String) (u url : String) (bs : List Nat)
      (fetch : String → Option (List Nat)),
      keyUrlOf base u = Except.ok url → fetch url = some bs →
      resolveKey base (some ⟨some u, none⟩) fetch = KeyRes.unwrapNone) := by
  constructor
  · intro base iv fetch
    rfl
  · intro base u url bs fetch h1 h2
    simp only [resolveKey, h1, h2]

/-- Witness for the amended claim C10: a concrete key reference with an absent IV whose
URL resolves and whose fetch succeeds makes key resolution abort on unwrap of None. -/
theorem key_attrs_unwrap_witness :
    keyUrlOf (some "http://h/") "k.key" = Except.ok "http://h/k.key" ∧
      resolveKey (some "http://h/") (some ⟨some "k.key", none⟩) (fun _ => some [1]) =
        KeyRes.unwrapNone :=
  ⟨rfl, key_attrs_unwrap.2 (some "http://h/") "k.key" "http://h/k.key" [1]
    (fun _ => some [1]) rfl rfl⟩

end M3U8Model
